import Mathlib

/-!
Verification of the monitoring / arbitrage-detection / trade-lifecycle core of a
Polymarket SOL-BTC 15-minute arbitrage bot, as a shallow embedding in Lean 4.

Modelling conventions:
* `rust_decimal::Decimal` prices and `f64` amounts are both modelled as `ℚ`.
  The detector's `Decimal` arithmetic (addition, subtraction, comparison) is
  exact, so `ℚ` is a faithful model of it; the trader's `f64` arithmetic is
  modelled at the ideal (real-number) level.
* `std::time::Instant` values are modelled as natural-number second counts; an
  age `instant.elapsed()` becomes `now - timestamp` with truncated subtraction.
* `HashMap<String, _>` ledgers and caches are modelled as association lists
  (`List (String × _)`) with distinct keys; `Result<T>` becomes `Except String T`
  and external API calls become pure oracle functions returning `Option`.
-/

namespace Bot

/-- models.rs `TokenPrice`: a token identifier with optional bid/ask quotes. -/
structure TokenPrice where
  token_id : String
  bid : Option ℚ
  ask : Option ℚ
deriving DecidableEq, Repr

/-- models.rs `TokenPrice::ask_price`: `self.ask.unwrap_or(Decimal::ZERO)`. -/
def TokenPrice.ask_price (t : TokenPrice) : ℚ :=
  t.ask.getD 0

/-- models.rs `ArbitrageOpportunity`. -/
structure ArbitrageOpportunity where
  sol_up_price : ℚ
  btc_down_price : ℚ
  total_cost : ℚ
  expected_profit : ℚ
  sol_up_token_id : String
  btc_down_token_id : String
  sol_condition_id : String
  btc_condition_id : String
deriving DecidableEq, Repr

/-- models.rs `MarketData`: one instrument's condition id and its two
optional outcome-token quotes. -/
structure MarketData where
  condition_id : String
  market_name : String
  up_token : Option TokenPrice
  down_token : Option TokenPrice
deriving DecidableEq, Repr

/-- monitor.rs `MarketSnapshot`. -/
structure MarketSnapshot where
  sol_market : MarketData
  btc_market : MarketData
  timestamp : ℕ
deriving DecidableEq, Repr

/-- arbitrage.rs `ArbitrageDetector`: carries the configured minimum profit
threshold. -/
structure ArbitrageDetector where
  min_profit_threshold : ℚ
deriving DecidableEq, Repr

/-- arbitrage.rs `ArbitrageDetector::check_arbitrage` (lines 62-103): the
safety filter (both asks below $0.6 → no trade), then the `total_cost < $1`
check, then the profit-threshold check. -/
def ArbitrageDetector.check_arbitrage (d : ArbitrageDetector)
    (token1 token2 : TokenPrice) (condition1 condition2 : String) :
    Option ArbitrageOpportunity :=
  let price1 := token1.ask_price
  let price2 := token2.ask_price
  let total_cost := price1 + price2
  let dollar : ℚ := 1
  let min_price_threshold : ℚ := 0.6
  if price1 < min_price_threshold ∧ price2 < min_price_threshold then
    none
  else if total_cost < dollar then
    let expected_profit := dollar - total_cost
    if d.min_profit_threshold ≤ expected_profit then
      some { sol_up_price := price1
             btc_down_price := price2
             total_cost := total_cost
             expected_profit := expected_profit
             sol_up_token_id := token1.token_id
             btc_down_token_id := token2.token_id
             sol_condition_id := condition1
             btc_condition_id := condition2 }
    else
      none
  else
    none

/-- arbitrage.rs `detect_opportunities`, strategy 1 (lines 31-43): SOL Up +
BTC Down, evaluated only when both quotes are present. -/
def ArbitrageDetector.strategy1 (d : ArbitrageDetector) (s : MarketSnapshot) :
    List ArbitrageOpportunity :=
  match s.sol_market.up_token, s.btc_market.down_token with
  | some sol_up_price, some btc_down_price =>
      (d.check_arbitrage sol_up_price btc_down_price
        s.sol_market.condition_id s.btc_market.condition_id).toList
  | _, _ => []

/-- arbitrage.rs `detect_opportunities`, strategy 2 (lines 45-57): SOL Down +
BTC Up, evaluated only when both quotes are present. -/
def ArbitrageDetector.strategy2 (d : ArbitrageDetector) (s : MarketSnapshot) :
    List ArbitrageOpportunity :=
  match s.sol_market.down_token, s.btc_market.up_token with
  | some sol_down_price, some btc_up_price =>
      (d.check_arbitrage sol_down_price btc_up_price
        s.sol_market.condition_id s.btc_market.condition_id).toList
  | _, _ => []

/-- arbitrage.rs `ArbitrageDetector::detect_opportunities` (lines 22-60): the
two fixed leg combinations, in order. -/
def ArbitrageDetector.detect_opportunities (d : ArbitrageDetector)
    (s : MarketSnapshot) : List ArbitrageOpportunity :=
  d.strategy1 s ++ d.strategy2 s

/-- C1: for present leg quotes with ask prices p1, p2 such that p1 + p2 < 1,
1 - (p1 + p2) ≥ the configured minimum profit threshold, and not both below
0.6, `check_arbitrage` returns exactly one opportunity with
`total_cost = p1 + p2` and `expected_profit = 1 - (p1 + p2)`, and
`detect_opportunities` reports exactly that one opportunity for the leg
combination. -/
theorem check_arbitrage_reports_profitable_pair (d : ArbitrageDetector)
    (t1 t2 : TokenPrice) (c1 c2 : String)
    (hsum : t1.ask_price + t2.ask_price < 1)
    (hthr : d.min_profit_threshold ≤ 1 - (t1.ask_price + t2.ask_price))
    (hsafe : ¬ (t1.ask_price < 0.6 ∧ t2.ask_price < 0.6)) :
    ∃ opp : ArbitrageOpportunity,
      d.check_arbitrage t1 t2 c1 c2 = some opp ∧
      opp.total_cost = t1.ask_price + t2.ask_price ∧
      opp.expected_profit = 1 - (t1.ask_price + t2.ask_price) ∧
      ∀ s : MarketSnapshot,
        s.sol_market.up_token = some t1 → s.btc_market.down_token = some t2 →
        s.sol_market.condition_id = c1 → s.btc_market.condition_id = c2 →
        d.strategy1 s = [opp] := by
  have hcheck : d.check_arbitrage t1 t2 c1 c2 = some
      { sol_up_price := t1.ask_price
        btc_down_price := t2.ask_price
        total_cost := t1.ask_price + t2.ask_price
        expected_profit := 1 - (t1.ask_price + t2.ask_price)
        sol_up_token_id := t1.token_id
        btc_down_token_id := t2.token_id
        sol_condition_id := c1
        btc_condition_id := c2 } := by
    unfold ArbitrageDetector.check_arbitrage
    simp only [if_neg hsafe, if_pos hsum, if_pos hthr]
  refine ⟨_, hcheck, rfl, rfl, ?_⟩
  intro s hup hdown hc1 hc2
  unfold ArbitrageDetector.strategy1
  rw [hup, hdown, hc1, hc2]
  show (d.check_arbitrage t1 t2 c1 c2).toList = _
  rw [hcheck]
  rfl

/-- Witness for C1 at concrete inputs: threshold 0.01, asks 0.32 and 0.60. -/
theorem check_arbitrage_reports_profitable_pair_witness :
    let d : ArbitrageDetector := ⟨0.01⟩
    let t1 : TokenPrice := ⟨"s", none, some 0.32⟩
    let t2 : TokenPrice := ⟨"b", none, some 0.60⟩
    ∃ opp : ArbitrageOpportunity,
      d.check_arbitrage t1 t2 "cs" "cb" = some opp ∧
      opp.total_cost = t1.ask_price + t2.ask_price ∧
      opp.expected_profit = 1 - (t1.ask_price + t2.ask_price) ∧
      ∀ s : MarketSnapshot,
        s.sol_market.up_token = some t1 → s.btc_market.down_token = some t2 →
        s.sol_market.condition_id = "cs" → s.btc_market.condition_id = "cb" →
        d.strategy1 s = [opp] :=
  check_arbitrage_reports_profitable_pair ⟨0.01⟩ ⟨"s", none, some 0.32⟩
    ⟨"b", none, some 0.60⟩ "cs" "cb" (by norm_num [TokenPrice.ask_price])
    (by norm_num [TokenPrice.ask_price]) (by norm_num [TokenPrice.ask_price])

/-- C8: when both ask prices are strictly below 0.6 the safety filter fires:
`check_arbitrage` returns no opportunity, and both leg combinations of
`detect_opportunities` report nothing, regardless of the configured
threshold and of the price sum. -/
theorem check_arbitrage_safety_filter (d : ArbitrageDetector)
    (t1 t2 : TokenPrice) (c1 c2 : String)
    (h1 : t1.ask_price < 0.6) (h2 : t2.ask_price < 0.6) :
    d.check_arbitrage t1 t2 c1 c2 = none ∧
    (∀ s : MarketSnapshot,
      s.sol_market.up_token = some t1 → s.btc_market.down_token = some t2 →
      d.strategy1 s = []) ∧
    (∀ s : MarketSnapshot,
      s.sol_market.down_token = some t1 → s.btc_market.up_token = some t2 →
      d.strategy2 s = []) := by
  have hnone : ∀ a b : String, d.check_arbitrage t1 t2 a b = none := by
    intro a b
    unfold ArbitrageDetector.check_arbitrage
    simp only [if_pos (And.intro h1 h2)]
  refine ⟨hnone c1 c2, ?_, ?_⟩
  · intro s hup hdown
    unfold ArbitrageDetector.strategy1
    rw [hup, hdown]
    show (d.check_arbitrage t1 t2 _ _).toList = _
    rw [hnone]
    rfl
  · intro s hdown hup
    unfold ArbitrageDetector.strategy2
    rw [hdown, hup]
    show (d.check_arbitrage t1 t2 _ _).toList = _
    rw [hnone]
    rfl

/-- Witness for C8 at concrete inputs: asks 0.3 and 0.55, threshold 0.01. -/
theorem check_arbitrage_safety_filter_witness :
    let d : ArbitrageDetector := ⟨0.01⟩
    let t1 : TokenPrice := ⟨"s", none, some 0.3⟩
    let t2 : TokenPrice := ⟨"b", none, some 0.55⟩
    d.check_arbitrage t1 t2 "cs" "cb" = none ∧
    (∀ s : MarketSnapshot,
      s.sol_market.up_token = some t1 → s.btc_market.down_token = some t2 →
      d.strategy1 s = []) ∧
    (∀ s : MarketSnapshot,
      s.sol_market.down_token = some t1 → s.btc_market.up_token = some t2 →
      d.strategy2 s = []) :=
  check_arbitrage_safety_filter ⟨0.01⟩ ⟨"s", none, some 0.3⟩
    ⟨"b", none, some 0.55⟩ "cs" "cb" (by norm_num [TokenPrice.ask_price])
    (by norm_num [TokenPrice.ask_price])

/-- A concrete bid-only SOL Up quote: present `TokenPrice` with `ask = none`. -/
def bidOnlySolUp : TokenPrice :=
  ⟨"sol-up-token", some 0.5, none⟩

/-- A concrete BTC Down quote with ask 0.7, inside [0.6, 1 - threshold]. -/
def askOnlyBtcDown : TokenPrice :=
  ⟨"btc-down-token", none, some 0.7⟩

/-- A concrete snapshot where the SOL Up leg is present but bid-only. -/
def bidOnlySnapshot : MarketSnapshot :=
  { sol_market := ⟨"sol-cond", "SOL", some bidOnlySolUp, none⟩
    btc_market := ⟨"btc-cond", "BTC", none, some askOnlyBtcDown⟩
    timestamp := 0 }

/-- C10: `ask_price` of a quote with `ask = none` is 0, and that zero default
feeds the detection decision itself: on a snapshot whose SOL Up quote is
present but bid-only and whose BTC Down ask is 0.7 ∈ [0.6, 1 - 0.01], the
detector (threshold 0.01) reports an opportunity whose SOL leg price is 0 and
whose total cost is the BTC leg's ask alone. -/
theorem ask_price_zero_default_drives_detection :
    bidOnlySolUp.ask = none ∧ bidOnlySolUp.bid.isSome = true ∧
    bidOnlySolUp.ask_price = 0 ∧
    (0.6 : ℚ) ≤ askOnlyBtcDown.ask_price ∧
    askOnlyBtcDown.ask_price ≤ 1 - (0.01 : ℚ) ∧
    ArbitrageDetector.detect_opportunities ⟨0.01⟩ bidOnlySnapshot =
      [{ sol_up_price := 0
         btc_down_price := 0.7
         total_cost := 0.7
         expected_profit := 0.3
         sol_up_token_id := "sol-up-token"
         btc_down_token_id := "btc-down-token"
         sol_condition_id := "sol-cond"
         btc_condition_id := "btc-cond" }] := by
  refine ⟨rfl, rfl, rfl, by norm_num [askOnlyBtcDown, TokenPrice.ask_price],
    by norm_num [askOnlyBtcDown, TokenPrice.ask_price], ?_⟩
  norm_num [ArbitrageDetector.detect_opportunities, ArbitrageDetector.strategy1,
    ArbitrageDetector.strategy2, ArbitrageDetector.check_arbitrage,
    bidOnlySnapshot, bidOnlySolUp, askOnlyBtcDown, TokenPrice.ask_price]

/-- models.rs `PendingTrade`: the ledger entry for one condition-id pair. -/
structure PendingTrade where
  sol_token_id : String
  btc_token_id : String
  sol_condition_id : String
  btc_condition_id : String
  investment_amount : ℚ
  units : ℚ
  timestamp : ℕ
deriving DecidableEq, Repr

/-- models.rs `MarketToken`: outcome label, token id and winner flag (the
price field, unused by the core, is omitted). -/
structure MarketToken where
  outcome : String
  token_id : String
  winner : Bool
deriving DecidableEq, Repr

/-- models.rs `MarketDetails`, restricted to the fields the core reads:
condition id, closed flag and outcome tokens. -/
structure MarketDetails where
  condition_id : String
  closed : Bool
  tokens : List MarketToken
deriving DecidableEq, Repr

/-- The pending-trade ledger: trader.rs `HashMap<String, PendingTrade>`
modelled as an association list in insertion order. -/
abbrev Ledger := List (String × PendingTrade)

/-- `HashMap::get` on an association list. -/
def ledger_lookup {β : Type} (k : String) : List (String × β) → Option β
  | [] => none
  | kv :: rest => if kv.1 = k then some kv.2 else ledger_lookup k rest

/-- trader.rs lines 300 / 394: `format!("{}_{}", sol_condition_id,
btc_condition_id)`, the ledger key of an opportunity. -/
def trade_key (opportunity : ArbitrageOpportunity) : String :=
  opportunity.sol_condition_id ++ "_" ++ opportunity.btc_condition_id

/-- trader.rs `Trader::calculate_position_size` (lines 435-455): units
affordable at `max_position_size`, re-multiplied by the unit cost and capped
at `max_position_size`. -/
def calculate_position_size (max_position_size : ℚ)
    (opportunity : ArbitrageOpportunity) : ℚ :=
  let max_size := max_position_size
  let cost_per_unit := opportunity.total_cost
  let units := max_size / cost_per_unit
  min (units * cost_per_unit) max_size

/-- trader.rs lines 305-310 / 399-404, the in-place accumulation applied to an
existing entry: `existing_trade.units += units;
existing_trade.investment_amount += position_size`. -/
def accumulate_entry (position_size units : ℚ) (t : PendingTrade) :
    PendingTrade :=
  { t with
    units := t.units + units
    investment_amount := t.investment_amount + position_size }

/-- trader.rs lines 302-323 / 396-417, the accumulate-or-insert tail shared by
`simulate_trade` and `execute_real_trade`: an existing entry for the key gets
the new units and investment added; otherwise a fresh entry is created with
the current timestamp. -/
def record_pending_trade (ledger : Ledger) (opportunity : ArbitrageOpportunity)
    (position_size units : ℚ) (now : ℕ) : Ledger :=
  let key := trade_key opportunity
  match ledger_lookup key ledger with
  | some _ =>
      ledger.map (fun kv =>
        if kv.1 = key then (kv.1, accumulate_entry position_size units kv.2)
        else kv)
  | none =>
      ledger ++ [(key,
        { sol_token_id := opportunity.sol_up_token_id
          btc_token_id := opportunity.btc_down_token_id
          sol_condition_id := opportunity.sol_condition_id
          btc_condition_id := opportunity.btc_condition_id
          investment_amount := position_size
          units := units
          timestamp := now })]

/-- trader.rs `Trader::simulate_trade` (lines 252-339), ledger effect: sizes
the position, derives units, and records/accumulates the pending trade. -/
def simulate_trade (max_position_size : ℚ) (ledger : Ledger)
    (opportunity : ArbitrageOpportunity) (now : ℕ) : Ledger :=
  let position_size := calculate_position_size max_position_size opportunity
  let cost_per_unit := opportunity.total_cost
  let units := position_size / cost_per_unit
  record_pending_trade ledger opportunity position_size units now

/-- trader.rs `Trader::execute_real_trade` (lines 341-433), ledger effect:
identical bookkeeping to `simulate_trade`; order placement (lines 347-387)
does not touch the ledger and its failures are logged only. -/
def execute_real_trade (max_position_size : ℚ) (ledger : Ledger)
    (opportunity : ArbitrageOpportunity) (now : ℕ) : Ledger :=
  let position_size := calculate_position_size max_position_size opportunity
  let cost_per_unit := opportunity.total_cost
  let units := position_size / cost_per_unit
  record_pending_trade ledger opportunity position_size units now

/-- trader.rs `Trader::calculate_actual_profit` (lines 217-241). -/
def calculate_actual_profit (trade : PendingTrade)
    (sol_winner btc_winner : Bool) : ℚ :=
  let payout_per_unit : ℚ :=
    if sol_winner && btc_winner then 2
    else if sol_winner || btc_winner then 1
    else 0
  let total_payout := payout_per_unit * trade.units
  total_payout - trade.investment_amount

/-- C2: the settlement payoff table is exact — both legs won pays 2 × units,
exactly one leg won pays 1 × units, neither pays 0, and the realized profit
is the payout minus the invested amount in all four cases. -/
theorem calculate_actual_profit_payoff_table (trade : PendingTrade) :
    calculate_actual_profit trade true true =
      2 * trade.units - trade.investment_amount ∧
    calculate_actual_profit trade true false =
      1 * trade.units - trade.investment_amount ∧
    calculate_actual_profit trade false true =
      1 * trade.units - trade.investment_amount ∧
    calculate_actual_profit trade false false =
      0 - trade.investment_amount := by
  refine ⟨rfl, rfl, rfl, ?_⟩
  simp [calculate_actual_profit]

theorem ledger_lookup_append_self {β : Type} (k : String)
    (l : List (String × β)) (v : β) (h : ledger_lookup k l = none) :
    ledger_lookup k (l ++ [(k, v)]) = some v := by
  induction l with
  | nil => simp [ledger_lookup]
  | cons kv rest ih =>
      simp only [ledger_lookup, List.cons_append] at h ⊢
      by_cases hk : kv.1 = k
      · rw [if_pos hk] at h
        exact Option.noConfusion h
      · rw [if_neg hk] at h ⊢
        exact ih h

/-- C7: for an opportunity with positive total cost c, the recorded position
size is min(maxPositionSize, (maxPositionSize / c) × c), and the entry created
for a fresh key carries units = positionSize / c and investment = positionSize,
identically in simulation and live mode. -/
theorem position_size_and_units_formula (m : ℚ)
    (opportunity : ArbitrageOpportunity) (ledger : Ledger) (now : ℕ)
    (hc : 0 < opportunity.total_cost)
    (hnew : ledger_lookup (trade_key opportunity) ledger = none) :
    calculate_position_size m opportunity =
      min m ((m / opportunity.total_cost) * opportunity.total_cost) ∧
    ledger_lookup (trade_key opportunity)
        (simulate_trade m ledger opportunity now) =
      some { sol_token_id := opportunity.sol_up_token_id
             btc_token_id := opportunity.btc_down_token_id
             sol_condition_id := opportunity.sol_condition_id
             btc_condition_id := opportunity.btc_condition_id
             investment_amount := calculate_position_size m opportunity
             units := calculate_position_size m opportunity /
                        opportunity.total_cost
             timestamp := now } ∧
    execute_real_trade m ledger opportunity now =
      simulate_trade m ledger opportunity now := by
  refine ⟨min_comm _ _, ?_, rfl⟩
  simp only [simulate_trade, record_pending_trade, hnew]
  exact ledger_lookup_append_self _ _ _ hnew

/-- Witness for C7 at concrete inputs: max position $100, total cost 0.92,
empty ledger. -/
theorem position_size_and_units_formula_witness :
    let opportunity : ArbitrageOpportunity :=
      { sol_up_price := 0.32, btc_down_price := 0.60, total_cost := 0.92,
        expected_profit := 0.08, sol_up_token_id := "ts",
        btc_down_token_id := "tb", sol_condition_id := "cs",
        btc_condition_id := "cb" }
    calculate_position_size 100 opportunity =
      min 100 ((100 / opportunity.total_cost) * opportunity.total_cost) ∧
    ledger_lookup (trade_key opportunity)
        (simulate_trade 100 [] opportunity 5) =
      some { sol_token_id := "ts"
             btc_token_id := "tb"
             sol_condition_id := "cs"
             btc_condition_id := "cb"
             investment_amount := calculate_position_size 100 opportunity
             units := calculate_position_size 100 opportunity /
                        opportunity.total_cost
             timestamp := 5 } ∧
    execute_real_trade 100 [] opportunity 5 =
      simulate_trade 100 [] opportunity 5 :=
  position_size_and_units_formula 100 _ [] 5 (by norm_num) rfl


/-- trader.rs `CachedMarketData` (lines 12-16). -/
structure CachedMarketData where
  market : MarketDetails
  cached_at : ℕ
deriving DecidableEq, Repr

/-- The 60-second market-metadata cache, trader.rs line 25:
`HashMap<String, CachedMarketData>` keyed by condition id. -/
abbrev MarketCache := List (String × CachedMarketData)

/-- `HashMap::insert`: replace the entry for the key if present, else add. -/
def cache_insert (cache : MarketCache) (k : String) (v : CachedMarketData) :
    MarketCache :=
  match ledger_lookup k cache with
  | some _ => cache.map (fun kv => if kv.1 = k then (kv.1, v) else kv)
  | none => cache ++ [(k, v)]

/-- trader.rs lines 123-126 / 150-153: look up our token among the market's
tokens and read its winner flag, defaulting to false. -/
def winner_of (market : MarketDetails) (token_id : String) : Bool :=
  ((market.tokens.find? (fun t => t.token_id == token_id)).map
    MarketToken.winner).getD false

/-- trader.rs lines 137-163, the cache-miss path of
`check_market_result_cached`: fetch metadata (`get_market` returns `none` on
a failed fetch, which is treated as not-closed / no winner), cache a
successful response, and report `(closed, winner)`. -/
def fetch_market_result (get_market : String → Option MarketDetails)
    (now : ℕ) (cache : MarketCache) (condition_id token_id : String) :
    (Bool × Bool) × MarketCache :=
  match get_market condition_id with
  | some market =>
      let cache2 := cache_insert cache condition_id ⟨market, now⟩
      if market.closed then ((true, winner_of market token_id), cache2)
      else ((false, false), cache2)
  | none => ((false, false), cache)

/-- trader.rs `Trader::check_market_result_cached` (lines 112-164): serve a
fresh (< 60 s) cached response, else fall through to the fetch path. -/
def check_market_result_cached (get_market : String → Option MarketDetails)
    (now : ℕ) (cache : MarketCache) (condition_id token_id : String) :
    (Bool × Bool) × MarketCache :=
  match ledger_lookup condition_id cache with
  | some cached =>
      if now - cached.cached_at < 60 then
        if cached.market.closed then
          ((true, winner_of cached.market token_id), cache)
        else ((false, false), cache)
      else fetch_market_result get_market now cache condition_id token_id
  | none => fetch_market_result get_market now cache condition_id token_id

/-- The cache-free meaning of one closure check against the current metadata
source: closed/winner from a successful fetch, (false, false) on failure. -/
def check_market_result (get_market : String → Option MarketDetails)
    (condition_id token_id : String) : Bool × Bool :=
  match get_market condition_id with
  | some market =>
      if market.closed then (true, winner_of market token_id)
      else (false, false)
  | none => (false, false)

/-- A cache is coherent with the metadata source at time `now` when every
entry it would still serve (age < 60 s) stores exactly the source's current
response for that condition id. -/
def CacheCoherent (get_market : String → Option MarketDetails) (now : ℕ)
    (cache : MarketCache) : Prop :=
  ∀ kv ∈ cache, now - kv.2.cached_at < 60 → get_market kv.1 = some kv.2.market

theorem ledger_lookup_mem {β : Type} {k : String} {l : List (String × β)}
    {v : β} (h : ledger_lookup k l = some v) : (k, v) ∈ l := by
  induction l with
  | nil => exact Option.noConfusion h
  | cons kv rest ih =>
      simp only [ledger_lookup] at h
      by_cases hk : kv.1 = k
      · rw [if_pos hk] at h
        have hkv : kv = (k, v) := by
          cases kv
          cases h
          simp_all
        rw [← hkv]
        exact List.mem_cons_self _ _
      · rw [if_neg hk] at h
        exact List.mem_cons_of_mem _ (ih h)

theorem cache_insert_coherent {get_market : String → Option MarketDetails}
    {now : ℕ} {cache : MarketCache} {k : String} {m : MarketDetails}
    (hco : CacheCoherent get_market now cache) (hk : get_market k = some m) :
    CacheCoherent get_market now (cache_insert cache k ⟨m, now⟩) := by
  intro kv hkv hfresh
  unfold cache_insert at hkv
  cases hl : ledger_lookup k cache with
  | some v =>
      rw [hl] at hkv
      rcases List.mem_map.mp hkv with ⟨kv0, hkv0, hmap⟩
      by_cases h0 : kv0.1 = k
      · rw [if_pos h0] at hmap
        rw [← hmap]
        simpa [h0] using hk
      · rw [if_neg h0] at hmap
        rw [← hmap]
        exact hco kv0 hkv0 (by rw [hmap]; exact hfresh)
  | none =>
      rw [hl] at hkv
      rcases List.mem_append.mp hkv with h | h
      · exact hco kv h hfresh
      · have : kv = (k, (⟨m, now⟩ : CachedMarketData)) := List.mem_singleton.mp h
        rw [this]
        exact hk

theorem fetch_market_result_coherent
    {get_market : String → Option MarketDetails} {now : ℕ}
    {cache : MarketCache} (condition_id token_id : String)
    (hco : CacheCoherent get_market now cache) :
    (fetch_market_result get_market now cache condition_id token_id).1 =
      check_market_result get_market condition_id token_id ∧
    CacheCoherent get_market now
      (fetch_market_result get_market now cache condition_id token_id).2 := by
  unfold fetch_market_result check_market_result
  cases hg : get_market condition_id with
  | some market =>
      dsimp only
      by_cases hcl : market.closed = true
      · simp only [hcl, if_true]
        exact ⟨trivial, cache_insert_coherent hco hg⟩
      · simp only [hcl, Bool.false_eq_true, if_false]
        exact ⟨trivial, cache_insert_coherent hco hg⟩
  | none => exact ⟨rfl, hco⟩

theorem check_market_result_cached_coherent
    {get_market : String → Option MarketDetails} {now : ℕ}
    {cache : MarketCache} (condition_id token_id : String)
    (hco : CacheCoherent get_market now cache) :
    (check_market_result_cached get_market now cache condition_id token_id).1 =
      check_market_result get_market condition_id token_id ∧
    CacheCoherent get_market now
      (check_market_result_cached get_market now cache
        condition_id token_id).2 := by
  unfold check_market_result_cached
  cases hl : ledger_lookup condition_id cache with
  | some cached =>
      dsimp only
      by_cases hfresh : now - cached.cached_at < 60
      · rw [if_pos hfresh]
        have hsrc : get_market condition_id = some cached.market :=
          hco _ (ledger_lookup_mem hl) hfresh
        unfold check_market_result
        rw [hsrc]
        dsimp only
        by_cases hcl : cached.market.closed = true
        · simp only [hcl, if_true]
          exact ⟨trivial, hco⟩
        · simp only [hcl, Bool.false_eq_true, if_false]
          exact ⟨trivial, hco⟩
      · rw [if_neg hfresh]
        exact fetch_market_result_coherent condition_id token_id hco
  | none => exact fetch_market_result_coherent condition_id token_id hco

/-- trader.rs line 47: `Duration::from_secs(14 * 60)`, the minimum age before
a pending trade is evaluated for settlement. -/
def min_age : ℕ := 14 * 60

/-- The evolving state of one settlement sweep: the metadata cache, the keys
collected in `to_remove`, the running total-profit accumulator, and — as ghost
instrumentation for the specification — the keys for which closure checks
were actually performed. -/
structure SweepState where
  cache : MarketCache
  to_remove : List String
  total_profit : ℚ
  evaluated : List String
deriving DecidableEq, Repr

/-- trader.rs `Trader::check_pending_trades`, loop body (lines 54-103): skip
entries younger than 14 minutes; otherwise run both closure checks through
the metadata cache and, when both markets report closed, add the realized
profit to the accumulator and mark the key for removal. -/
def sweep_step (get_market : String → Option MarketDetails) (now : ℕ)
    (st : SweepState) (kv : String × PendingTrade) : SweepState :=
  let trade := kv.2
  let age := now - trade.timestamp
  if age < min_age then st
  else
    let sol_result := check_market_result_cached get_market now st.cache
      trade.sol_condition_id trade.sol_token_id
    let btc_result := check_market_result_cached get_market now sol_result.2
      trade.btc_condition_id trade.btc_token_id
    let st1 : SweepState :=
      { st with cache := btc_result.2, evaluated := st.evaluated ++ [kv.1] }
    if sol_result.1.1 && btc_result.1.1 then
      { st1 with
        total_profit := st1.total_profit +
          calculate_actual_profit trade sol_result.1.2 btc_result.1.2
        to_remove := st1.to_remove ++ [kv.1] }
    else st1

/-- trader.rs `Trader::check_pending_trades` (lines 42-110): fold the loop
body over the ledger, then remove every key collected in `to_remove`
(lines 105-107). -/
def check_pending_trades (get_market : String → Option MarketDetails)
    (now : ℕ) (ledger : Ledger) (cache : MarketCache) (total_profit : ℚ) :
    Ledger × SweepState :=
  let final := ledger.foldl (sweep_step get_market now)
    ⟨cache, [], total_profit, []⟩
  (ledger.filter (fun kv => !(final.to_remove.contains kv.1)), final)

/-- Whether one pending trade settles during a sweep at time `now`: at least
14 minutes old, with both referenced markets' closure checks reporting
closed. -/
def settles (get_market : String → Option MarketDetails) (now : ℕ)
    (trade : PendingTrade) : Bool :=
  if now - trade.timestamp < min_age then false
  else
    (check_market_result get_market trade.sol_condition_id
      trade.sol_token_id).1 &&
    (check_market_result get_market trade.btc_condition_id
      trade.btc_token_id).1

theorem sweep_step_spec (get_market : String → Option MarketDetails)
    (now : ℕ) (st : SweepState) (kv : String × PendingTrade)
    (hco : CacheCoherent get_market now st.cache) :
    CacheCoherent get_market now (sweep_step get_market now st kv).cache ∧
    (sweep_step get_market now st kv).to_remove =
      st.to_remove ++ (if settles get_market now kv.2 then [kv.1] else []) ∧
    (sweep_step get_market now st kv).evaluated =
      st.evaluated ++
        (if now - kv.2.timestamp < min_age then [] else [kv.1]) := by
  unfold sweep_step settles
  by_cases hage : now - kv.2.timestamp < min_age
  · simp only [hage, if_true]
    refine ⟨hco, ?_, ?_⟩ <;> simp
  · simp only [hage, if_false]
    obtain ⟨hsol_eq, hsol_co⟩ := check_market_result_cached_coherent
      kv.2.sol_condition_id kv.2.sol_token_id hco
    obtain ⟨hbtc_eq, hbtc_co⟩ := check_market_result_cached_coherent
      kv.2.btc_condition_id kv.2.btc_token_id hsol_co
    rw [hsol_eq, hbtc_eq]
    by_cases hboth :
        ((check_market_result get_market kv.2.sol_condition_id
            kv.2.sol_token_id).1 &&
          (check_market_result get_market kv.2.btc_condition_id
            kv.2.btc_token_id).1) = true
    · simp only [hboth, if_true]
      refine ⟨hbtc_co, ?_, ?_⟩ <;> simp
    · simp only [hboth, Bool.false_eq_true, if_false]
      refine ⟨hbtc_co, ?_, ?_⟩ <;> simp

theorem sweep_fold_coherent (get_market : String → Option MarketDetails)
    (now : ℕ) (l : Ledger) (st : SweepState)
    (hco : CacheCoherent get_market now st.cache) :
    CacheCoherent get_market now
      ((l.foldl (sweep_step get_market now) st).cache) := by
  induction l generalizing st with
  | nil => exact hco
  | cons kv rest ih => exact ih _ (sweep_step_spec get_market now st kv hco).1

theorem sweep_fold_not_mem (get_market : String → Option MarketDetails)
    (now : ℕ) (l : Ledger) (st : SweepState) (k : String)
    (hco : CacheCoherent get_market now st.cache)
    (hk : k ∉ l.map Prod.fst) :
    (k ∈ (l.foldl (sweep_step get_market now) st).to_remove ↔
      k ∈ st.to_remove) ∧
    (k ∈ (l.foldl (sweep_step get_market now) st).evaluated ↔
      k ∈ st.evaluated) := by
  induction l generalizing st with
  | nil => exact ⟨Iff.rfl, Iff.rfl⟩
  | cons kv rest ih =>
      simp only [List.map_cons, List.mem_cons, not_or] at hk
      obtain ⟨hk1, hk2⟩ := hk
      obtain ⟨hco', hrem, heval⟩ := sweep_step_spec get_market now st kv hco
      obtain ⟨ih1, ih2⟩ := ih (sweep_step get_market now st kv) hco' hk2
      rw [List.foldl_cons]
      refine ⟨ih1.trans ?_, ih2.trans ?_⟩
      · rw [hrem]
        by_cases hs : settles get_market now kv.2 = true <;> simp [hs, hk1]
      · rw [heval]
        by_cases ha : now - kv.2.timestamp < min_age <;> simp [ha, hk1]

theorem sweep_fold_mem (get_market : String → Option MarketDetails)
    (now : ℕ) (l : Ledger) (st : SweepState) (k : String) (t : PendingTrade)
    (hco : CacheCoherent get_market now st.cache)
    (hmem : (k, t) ∈ l) (hnodup : (l.map Prod.fst).Nodup) :
    (k ∈ (l.foldl (sweep_step get_market now) st).to_remove ↔
      (k ∈ st.to_remove ∨ settles get_market now t = true)) ∧
    (k ∈ (l.foldl (sweep_step get_market now) st).evaluated ↔
      (k ∈ st.evaluated ∨ ¬ (now - t.timestamp < min_age))) := by
  induction l generalizing st with
  | nil => cases hmem
  | cons kv rest ih =>
      simp only [List.map_cons, List.nodup_cons] at hnodup
      obtain ⟨hhead, hnodup2⟩ := hnodup
      obtain ⟨hco', hrem, heval⟩ := sweep_step_spec get_market now st kv hco
      rw [List.foldl_cons]
      rcases List.mem_cons.mp hmem with heq | htail
      · obtain rfl : kv = (k, t) := heq.symm
        obtain ⟨h1, h2⟩ := sweep_fold_not_mem get_market now rest _ k hco' hhead
        refine ⟨h1.trans ?_, h2.trans ?_⟩
        · rw [hrem]
          by_cases hs : settles get_market now ((k, t) : String × PendingTrade).2 = true <;>
            simp [hs]
        · rw [heval]
          by_cases ha : now - ((k, t) : String × PendingTrade).2.timestamp < min_age <;>
            simp [ha]
      · have hkne : k ≠ kv.1 := by
          intro h
          exact hhead (h ▸ List.mem_map_of_mem Prod.fst htail)
        obtain ⟨ih1, ih2⟩ := ih _ hco' htail hnodup2
        refine ⟨ih1.trans ?_, ih2.trans ?_⟩
        · rw [hrem]
          by_cases hs : settles get_market now kv.2 = true <;> simp [hs, hkne]
        · rw [heval]
          by_cases ha : now - kv.2.timestamp < min_age <;> simp [ha, hkne]

theorem settles_iff (get_market : String → Option MarketDetails) (now : ℕ)
    (t : PendingTrade) :
    settles get_market now t = true ↔
      (min_age ≤ now - t.timestamp ∧
       (check_market_result get_market t.sol_condition_id
         t.sol_token_id).1 = true ∧
       (check_market_result get_market t.btc_condition_id
         t.btc_token_id).1 = true) := by
  unfold settles
  by_cases h : now - t.timestamp < min_age
  · simp only [h, if_true]
    constructor
    · intro hf
      exact absurd hf Bool.false_ne_true
    · rintro ⟨h1, -, -⟩
      omega
  · have hle : min_age ≤ now - t.timestamp := Nat.le_of_not_lt h
    simp [h, Bool.and_eq_true, hle]

theorem check_pending_trades_mem (get_market : String → Option MarketDetails)
    (now : ℕ) (ledger : Ledger) (cache : MarketCache) (profit : ℚ)
    (kv : String × PendingTrade) :
    kv ∈ (check_pending_trades get_market now ledger cache profit).1 ↔
      kv ∈ ledger ∧
      kv.1 ∉ (check_pending_trades get_market now ledger
        cache profit).2.to_remove := by
  unfold check_pending_trades
  simp [List.mem_filter]

/-- C4: during a settlement sweep, a pending trade (with distinct ledger keys
and a cache coherent with the metadata source) stays in the ledger unchanged
if and only if it is not the case that it is at least 14 minutes old with both
of its referenced markets' closure checks reporting closed; a failed metadata
fetch reports not-closed (`check_market_result` yields `(false, false)` when
`get_market` returns `none`), so such an entry is kept. Equivalently, its key
is collected for removal exactly when it is old enough and both checks report
closed. -/
theorem check_pending_trades_removes_iff
    (get_market : String → Option MarketDetails) (now : ℕ) (ledger : Ledger)
    (cache : MarketCache) (profit : ℚ) (k : String) (t : PendingTrade)
    (hmem : (k, t) ∈ ledger) (hnodup : (ledger.map Prod.fst).Nodup)
    (hco : CacheCoherent get_market now cache) :
    (k ∈ (check_pending_trades get_market now ledger
        cache profit).2.to_remove ↔
      (min_age ≤ now - t.timestamp ∧
       (check_market_result get_market t.sol_condition_id
         t.sol_token_id).1 = true ∧
       (check_market_result get_market t.btc_condition_id
         t.btc_token_id).1 = true)) ∧
    ((k, t) ∈ (check_pending_trades get_market now ledger cache profit).1 ↔
      ¬ (min_age ≤ now - t.timestamp ∧
         (check_market_result get_market t.sol_condition_id
           t.sol_token_id).1 = true ∧
         (check_market_result get_market t.btc_condition_id
           t.btc_token_id).1 = true)) := by
  have hfold := sweep_fold_mem get_market now ledger
    ⟨cache, [], profit, []⟩ k t hco hmem hnodup
  have hrem : k ∈ (check_pending_trades get_market now ledger
      cache profit).2.to_remove ↔ settles get_market now t = true := by
    unfold check_pending_trades
    refine hfold.1.trans ?_
    simp
  have hrem2 := hrem.trans (settles_iff get_market now t)
  refine ⟨hrem2, ?_⟩
  rw [check_pending_trades_mem]
  constructor
  · rintro ⟨-, hnot⟩
    exact fun hs => hnot (hrem2.mpr hs)
  · intro hnot
    exact ⟨hmem, fun hk => hnot (hrem2.mp hk)⟩

/-- C5: a pending trade younger than 14 minutes is skipped by the sweep: no
closure evaluation is performed for it (its key never enters the evaluated
set) and it is not removed, even when both of its markets are already
closed. -/
theorem young_trade_never_evaluated
    (get_market : String → Option MarketDetails) (now : ℕ) (ledger : Ledger)
    (cache : MarketCache) (profit : ℚ) (k : String) (t : PendingTrade)
    (hmem : (k, t) ∈ ledger) (hnodup : (ledger.map Prod.fst).Nodup)
    (hco : CacheCoherent get_market now cache)
    (hyoung : now - t.timestamp < min_age) :
    k ∉ (check_pending_trades get_market now ledger
      cache profit).2.evaluated ∧
    (k, t) ∈ (check_pending_trades get_market now ledger cache profit).1 := by
  have hfold := sweep_fold_mem get_market now ledger
    ⟨cache, [], profit, []⟩ k t hco hmem hnodup
  constructor
  · intro hk
    have heval : k ∈ (check_pending_trades get_market now ledger
        cache profit).2.evaluated ↔
        (k ∈ ([] : List String) ∨ ¬ (now - t.timestamp < min_age)) := by
      unfold check_pending_trades
      exact hfold.2
    rcases heval.mp hk with h | h
    · exact List.not_mem_nil k h
    · exact h hyoung
  · refine (check_pending_trades_mem get_market now ledger cache profit
      (k, t)).mpr ⟨hmem, ?_⟩
    intro hk
    have hrem : k ∈ (check_pending_trades get_market now ledger
        cache profit).2.to_remove ↔
        (k ∈ ([] : List String) ∨ settles get_market now t = true) := by
      unfold check_pending_trades
      exact hfold.1
    rcases hrem.mp hk with h | h
    · exact List.not_mem_nil k h
    · rw [settles_iff] at h
      exact absurd h.1 (Nat.not_le_of_lt hyoung)

/-- A concrete metadata source for sweep witnesses: both markets closed, the
SOL-side token a winner, the BTC-side token a loser. -/
def closedMarketSource : String → Option MarketDetails :=
  fun condition_id =>
    if condition_id = "c1" then
      some ⟨"c1", true, [⟨"Up", "tok1", true⟩, ⟨"Down", "tok1d", false⟩]⟩
    else if condition_id = "c2" then
      some ⟨"c2", true, [⟨"Down", "tok2", false⟩, ⟨"Up", "tok2u", true⟩]⟩
    else none

/-- A concrete pending trade opened at time 0. -/
def sweepTrade : PendingTrade :=
  ⟨"tok1", "tok2", "c1", "c2", 100, 1, 0⟩

/-- Witness for C4 at a concrete sweep: single 900-second-old trade, empty
cache, both markets closed. -/
theorem check_pending_trades_removes_iff_witness :
    ("c1_c2" ∈ (check_pending_trades closedMarketSource 900
        [("c1_c2", sweepTrade)] [] 0).2.to_remove ↔
      (min_age ≤ 900 - sweepTrade.timestamp ∧
       (check_market_result closedMarketSource sweepTrade.sol_condition_id
         sweepTrade.sol_token_id).1 = true ∧
       (check_market_result closedMarketSource sweepTrade.btc_condition_id
         sweepTrade.btc_token_id).1 = true)) ∧
    (("c1_c2", sweepTrade) ∈ (check_pending_trades closedMarketSource 900
        [("c1_c2", sweepTrade)] [] 0).1 ↔
      ¬ (min_age ≤ 900 - sweepTrade.timestamp ∧
         (check_market_result closedMarketSource sweepTrade.sol_condition_id
           sweepTrade.sol_token_id).1 = true ∧
         (check_market_result closedMarketSource sweepTrade.btc_condition_id
           sweepTrade.btc_token_id).1 = true)) :=
  check_pending_trades_removes_iff closedMarketSource 900
    [("c1_c2", sweepTrade)] [] 0 "c1_c2" sweepTrade
    (List.mem_singleton.mpr rfl) (by simp)
    (by intro kv hkv; exact absurd hkv (List.not_mem_nil kv))

/-- Witness for C5 at a concrete sweep: single 100-second-old trade whose two
markets are both already closed. -/
theorem young_trade_never_evaluated_witness :
    "c1_c2" ∉ (check_pending_trades closedMarketSource 100
      [("c1_c2", sweepTrade)] [] 0).2.evaluated ∧
    ("c1_c2", sweepTrade) ∈ (check_pending_trades closedMarketSource 100
      [("c1_c2", sweepTrade)] [] 0).1 :=
  young_trade_never_evaluated closedMarketSource 100
    [("c1_c2", sweepTrade)] [] 0 "c1_c2" sweepTrade
    (List.mem_singleton.mpr rfl) (by simp)
    (by intro kv hkv; exact absurd hkv (List.not_mem_nil kv))
    (by decide)

theorem ledger_lookup_none_iff {β : Type} (k : String)
    (l : List (String × β)) :
    ledger_lookup k l = none ↔ k ∉ l.map Prod.fst := by
  induction l with
  | nil => simp [ledger_lookup]
  | cons kv rest ih =>
      simp only [ledger_lookup, List.map_cons, List.mem_cons, not_or]
      by_cases hk : kv.1 = k
      · simp [hk]
      · rw [if_neg hk, ih]
        exact ⟨fun hnot => ⟨fun h => hk h.symm, hnot⟩, fun h => h.2⟩

theorem map_update_fst {β : Type} (k : String) (l : List (String × β))
    (f : β → β) :
    ((l.map (fun kv => if kv.1 = k then (kv.1, f kv.2) else kv)).map
      Prod.fst) = l.map Prod.fst := by
  induction l with
  | nil => rfl
  | cons kv rest ih =>
      simp only [List.map_cons, ih]
      by_cases hk : kv.1 = k <;> simp [hk]

theorem ledger_lookup_map_update {β : Type} (k : String)
    (l : List (String × β)) (f : β → β) (v : β)
    (hl : ledger_lookup k l = some v) :
    ledger_lookup k
      (l.map (fun kv => if kv.1 = k then (kv.1, f kv.2) else kv)) =
      some (f v) := by
  induction l with
  | nil => exact Option.noConfusion hl
  | cons kv rest ih =>
      simp only [ledger_lookup, List.map_cons] at hl ⊢
      by_cases hk : kv.1 = k
      · rw [if_pos hk] at hl
        obtain rfl : kv.2 = v := Option.some.inj hl
        simp [hk, ledger_lookup]
      · rw [if_neg hk] at hl
        simp only [hk, if_false, ledger_lookup]
        exact ih hl

theorem nodup_keys_inj {β : Type} {l : List (String × β)}
    (hnd : (l.map Prod.fst).Nodup) {kv1 kv2 : String × β}
    (h1 : kv1 ∈ l) (h2 : kv2 ∈ l) (hk : kv1.1 = kv2.1) : kv1 = kv2 := by
  induction l with
  | nil => cases h1
  | cons kv rest ih =>
      simp only [List.map_cons, List.nodup_cons] at hnd
      obtain ⟨hhead, hnd2⟩ := hnd
      rcases List.mem_cons.mp h1 with rfl | h1t
      · rcases List.mem_cons.mp h2 with rfl | h2t
        · rfl
        · exact absurd (hk ▸ List.mem_map_of_mem Prod.fst h2t) hhead
      · rcases List.mem_cons.mp h2 with rfl | h2t
        · exact absurd (hk ▸ List.mem_map_of_mem Prod.fst h1t) hhead
        · exact ih hnd2 h1t h2t

/-- Well-formedness of the pending-trade ledger: association keys are
distinct, and each key is exactly the underscore-join of its entry's two
condition identifiers (the shape every entry is created with). -/
def LedgerWF (l : Ledger) : Prop :=
  (l.map Prod.fst).Nodup ∧
  ∀ kv ∈ l, kv.1 = kv.2.sol_condition_id ++ "_" ++ kv.2.btc_condition_id

theorem record_pending_trade_wf (l : Ledger)
    (opportunity : ArbitrageOpportunity) (p u : ℚ) (now : ℕ)
    (h : LedgerWF l) :
    LedgerWF (record_pending_trade l opportunity p u now) := by
  obtain ⟨hnd, hkeys⟩ := h
  cases hl : ledger_lookup (trade_key opportunity) l with
  | some t =>
      simp only [record_pending_trade, hl]
      refine ⟨?_, ?_⟩
      · rw [map_update_fst (trade_key opportunity) l
          (accumulate_entry p u)]
        exact hnd
      · intro kv hkv
        rcases List.mem_map.mp hkv with ⟨kv0, hkv0, hmap⟩
        by_cases hk : kv0.1 = trade_key opportunity
        · rw [if_pos hk] at hmap
          rw [← hmap]
          exact hkeys kv0 hkv0
        · rw [if_neg hk] at hmap
          rw [← hmap]
          exact hkeys kv0 hkv0
  | none =>
      simp only [record_pending_trade, hl]
      refine ⟨?_, ?_⟩
      · rw [List.map_append]
        refine List.Nodup.append hnd (List.nodup_singleton _) ?_
        intro a ha hb
        rcases List.mem_singleton.mp hb with rfl
        exact (ledger_lookup_none_iff _ _).mp hl ha
      · intro kv hkv
        rcases List.mem_append.mp hkv with hin | hin
        · exact hkeys kv hin
        · rcases List.mem_singleton.mp hin with rfl
          rfl

theorem check_pending_trades_wf (get_market : String → Option MarketDetails)
    (now : ℕ) (cache : MarketCache) (profit : ℚ) {l : Ledger}
    (h : LedgerWF l) :
    LedgerWF (check_pending_trades get_market now l cache profit).1 := by
  obtain ⟨hnd, hkeys⟩ := h
  unfold check_pending_trades
  refine ⟨?_, ?_⟩
  · exact List.Nodup.sublist (List.Sublist.map _ (List.filter_sublist _)) hnd
  · intro kv hkv
    exact hkeys kv (List.mem_of_mem_filter hkv)

/-- Ledger states reachable by the trader: from the empty ledger via
simulation-mode trades, live-mode trades, and settlement sweeps. -/
inductive ReachableLedger : Ledger → Prop
  | empty : ReachableLedger []
  | sim {l : Ledger} (m : ℚ) (opportunity : ArbitrageOpportunity) (now : ℕ) :
      ReachableLedger l → ReachableLedger (simulate_trade m l opportunity now)
  | live {l : Ledger} (m : ℚ) (opportunity : ArbitrageOpportunity)
      (now : ℕ) :
      ReachableLedger l →
      ReachableLedger (execute_real_trade m l opportunity now)
  | sweep {l : Ledger} (get_market : String → Option MarketDetails)
      (now : ℕ) (cache : MarketCache) (profit : ℚ) :
      ReachableLedger l →
      ReachableLedger (check_pending_trades get_market now l cache profit).1

theorem reachable_wf {l : Ledger} (h : ReachableLedger l) : LedgerWF l := by
  induction h with
  | empty => exact ⟨List.nodup_nil, by intro kv hkv; cases hkv⟩
  | sim m opportunity now _ ih =>
      exact record_pending_trade_wf _ _ _ _ _ ih
  | live m opportunity now _ ih =>
      exact record_pending_trade_wf _ _ _ _ _ ih
  | sweep get_market now cache profit _ ih =>
      exact check_pending_trades_wf get_market now cache profit ih

theorem record_pending_trade_accumulates (l : Ledger)
    (opportunity : ArbitrageOpportunity) (p u : ℚ) (now : ℕ)
    (t : PendingTrade)
    (hl : ledger_lookup (trade_key opportunity) l = some t) :
    (record_pending_trade l opportunity p u now).map Prod.fst =
      l.map Prod.fst ∧
    (record_pending_trade l opportunity p u now).length = l.length ∧
    ledger_lookup (trade_key opportunity)
        (record_pending_trade l opportunity p u now) =
      some { t with
             units := t.units + u
             investment_amount := t.investment_amount + p } := by
  simp only [record_pending_trade, hl]
  exact ⟨map_update_fst (trade_key opportunity) l (accumulate_entry p u),
    List.length_map _ _,
    ledger_lookup_map_update (trade_key opportunity) l
      (accumulate_entry p u) t hl⟩

/-- C3: in every reachable ledger state there is at most one pending-trade
entry per distinct (sol_condition_id, btc_condition_id) pair; and recording a
second opportunity for a pair whose key already has an entry updates that
entry in place — same keys, same length, the new units and investment added to
it — and never inserts a second entry, identically in simulation and live
mode. -/
theorem pending_ledger_unique_per_pair :
    (∀ l : Ledger, ReachableLedger l →
      ∀ kv1 ∈ l, ∀ kv2 ∈ l,
        kv1.2.sol_condition_id = kv2.2.sol_condition_id →
        kv1.2.btc_condition_id = kv2.2.btc_condition_id → kv1 = kv2) ∧
    (∀ (m : ℚ) (l : Ledger) (opportunity : ArbitrageOpportunity) (now : ℕ)
        (t : PendingTrade),
      ledger_lookup (trade_key opportunity) l = some t →
      (simulate_trade m l opportunity now).map Prod.fst = l.map Prod.fst ∧
      (simulate_trade m l opportunity now).length = l.length ∧
      ledger_lookup (trade_key opportunity)
          (simulate_trade m l opportunity now) =
        some { t with
               units := t.units +
                 calculate_position_size m opportunity /
                   opportunity.total_cost
               investment_amount := t.investment_amount +
                 calculate_position_size m opportunity } ∧
      execute_real_trade m l opportunity now =
        simulate_trade m l opportunity now) := by
  constructor
  · intro l hreach kv1 h1 kv2 h2 hsol hbtc
    obtain ⟨hnd, hkeys⟩ := reachable_wf hreach
    refine nodup_keys_inj hnd h1 h2 ?_
    rw [hkeys kv1 h1, hkeys kv2 h2, hsol, hbtc]
  · intro m l opportunity now t hl
    have hacc := record_pending_trade_accumulates l opportunity
      (calculate_position_size m opportunity)
      (calculate_position_size m opportunity / opportunity.total_cost)
      now t hl
    exact ⟨hacc.1, hacc.2.1, hacc.2.2, rfl⟩

/-- A concrete opportunity for the ledger witnesses: asks 0.32 + 0.60,
condition-id pair ("cs", "cb"). -/
def accOpportunity : ArbitrageOpportunity :=
  ⟨0.32, 0.60, 0.92, 0.08, "ts", "tb", "cs", "cb"⟩

/-- A concrete pre-existing ledger entry under the key of
`accOpportunity`. -/
def accTrade : PendingTrade :=
  ⟨"ts", "tb", "cs", "cb", 1, 2, 0⟩

/-- Witness for C3: uniqueness on a concrete reachable one-entry ledger, and
accumulation into a concrete pre-existing entry. -/
theorem pending_ledger_unique_per_pair_witness :
    (∀ kv1 ∈ simulate_trade 100 [] accOpportunity 0,
      ∀ kv2 ∈ simulate_trade 100 [] accOpportunity 0,
        kv1.2.sol_condition_id = kv2.2.sol_condition_id →
        kv1.2.btc_condition_id = kv2.2.btc_condition_id → kv1 = kv2) ∧
    ((simulate_trade 100 [("cs_cb", accTrade)] accOpportunity 7).map
        Prod.fst = [("cs_cb", accTrade)].map Prod.fst ∧
      (simulate_trade 100 [("cs_cb", accTrade)] accOpportunity 7).length =
        [("cs_cb", accTrade)].length ∧
      ledger_lookup (trade_key accOpportunity)
          (simulate_trade 100 [("cs_cb", accTrade)] accOpportunity 7) =
        some { accTrade with
               units := accTrade.units +
                 calculate_position_size 100 accOpportunity /
                   accOpportunity.total_cost
               investment_amount := accTrade.investment_amount +
                 calculate_position_size 100 accOpportunity } ∧
      execute_real_trade 100 [("cs_cb", accTrade)] accOpportunity 7 =
        simulate_trade 100 [("cs_cb", accTrade)] accOpportunity 7) :=
  ⟨pending_ledger_unique_per_pair.1 _
      (ReachableLedger.sim 100 accOpportunity 0 ReachableLedger.empty),
    pending_ledger_unique_per_pair.2 100 [("cs_cb", accTrade)]
      accOpportunity 7 accTrade (by simp [ledger_lookup, trade_key,
        accOpportunity])⟩

/-- A concrete snapshot carrying the spec's example quotes: SOL Up ask 0.42,
BTC Down ask 0.50, the other two legs absent. -/
def exampleSnapshot : MarketSnapshot :=
  { sol_market := ⟨"cs", "SOL", some ⟨"ts", none, some 0.42⟩, none⟩
    btc_market := ⟨"cb", "BTC", none, some ⟨"tb", none, some 0.50⟩⟩
    timestamp := 0 }

/-- C6 counterexample: with threshold 0.01, the claimed example quotes —
SOL Up ask 0.42 and BTC Down ask 0.50 — are both below 0.6, so the safety
filter rejects the pair: `check_arbitrage` returns nothing and the detector
reports no opportunity at all, contradicting the claimed opportunity with
total cost 0.92. -/
theorem example_scenario_rejected_by_safety_filter :
    ArbitrageDetector.check_arbitrage ⟨0.01⟩ ⟨"ts", none, some 0.42⟩
      ⟨"tb", none, some 0.50⟩ "cs" "cb" = none ∧
    ArbitrageDetector.detect_opportunities ⟨0.01⟩ exampleSnapshot = [] := by
  constructor
  · norm_num [ArbitrageDetector.check_arbitrage, TokenPrice.ask_price]
  · norm_num [ArbitrageDetector.detect_opportunities,
      ArbitrageDetector.strategy1, ArbitrageDetector.strategy2,
      ArbitrageDetector.check_arbitrage, exampleSnapshot,
      TokenPrice.ask_price]

/-- A snapshot with the amended example quotes: SOL Up ask 0.32, BTC Down ask
0.60 — same total cost 0.92, but passing the safety filter. -/
def amendedSnapshot : MarketSnapshot :=
  { sol_market := ⟨"cs", "SOL", some ⟨"ts", none, some 0.32⟩, none⟩
    btc_market := ⟨"cb", "BTC", none, some ⟨"tb", none, some 0.60⟩⟩
    timestamp := 0 }

/-- C6 amended: with threshold 0.01 and max position $100, a quote pair that
passes the safety filter with the same total cost — SOL Up ask 0.32, BTC Down
ask 0.60 — yields exactly the opportunity with total cost 0.92 and profit
0.08; recording it invests $100 at units = 100/0.92 = 2500/23 ≈ 108.70; and
settlement with the SOL leg won and the BTC leg lost realizes
100/0.92 − 100 = 200/23 ≈ 8.70. -/
theorem example_scenario_amended :
    ArbitrageDetector.detect_opportunities ⟨0.01⟩ amendedSnapshot =
      [accOpportunity] ∧
    accOpportunity.total_cost = 0.92 ∧
    accOpportunity.expected_profit = 0.08 ∧
    simulate_trade 100 [] accOpportunity 0 =
      [("cs_cb", ⟨"ts", "tb", "cs", "cb", 100, 2500/23, 0⟩)] ∧
    (2500 / 23 : ℚ) = 100 / 0.92 ∧
    (108.695 : ℚ) ≤ 2500 / 23 ∧ (2500 / 23 : ℚ) < 108.705 ∧
    calculate_actual_profit ⟨"ts", "tb", "cs", "cb", 100, 2500/23, 0⟩
      true false = 200 / 23 ∧
    (200 / 23 : ℚ) = 100 / 0.92 - 100 ∧
    (8.695 : ℚ) ≤ 200 / 23 ∧ (200 / 23 : ℚ) < 8.705 := by
  refine ⟨?_, by norm_num [accOpportunity], by norm_num [accOpportunity],
    ?_, by norm_num, by norm_num, by norm_num, ?_, by norm_num, by norm_num,
    by norm_num⟩
  · norm_num [ArbitrageDetector.detect_opportunities,
      ArbitrageDetector.strategy1, ArbitrageDetector.strategy2,
      ArbitrageDetector.check_arbitrage, amendedSnapshot,
      TokenPrice.ask_price, accOpportunity]
  · norm_num [simulate_trade, record_pending_trade, calculate_position_size,
      ledger_lookup, trade_key, accOpportunity, min_self]
    rfl
  · norm_num [calculate_actual_profit]

/-- Substring test on character lists (Rust `str::contains`). -/
def hasSub : List Char → List Char → Bool
  | [], needle => needle.isEmpty
  | c :: rest, needle => needle.isPrefixOf (c :: rest) || hasSub rest needle

/-- Rust `String::contains`. -/
def str_contains (s pat : String) : Bool :=
  hasSub s.toList pat.toList

/-- monitor.rs lines 124-133 / 138-147: classify each returned token by its
uppercased outcome label — "UP" or "1" sets the up token id, "DOWN" or "0"
sets the down token id, any other label leaves both ids as they were. -/
def classify_outcome_tokens (tokens : List MarketToken)
    (up down : Option String) : Option String × Option String :=
  tokens.foldl
    (fun acc token =>
      let outcome_upper := token.outcome.toUpper
      if str_contains outcome_upper "UP" || outcome_upper == "1" then
        (some token.token_id, acc.2)
      else if str_contains outcome_upper "DOWN" || outcome_upper == "0" then
        (acc.1, some token.token_id)
      else acc)
    (up, down)

/-- monitor.rs `MarketMonitor` mutable state: the two tracked condition ids,
the four cached outcome-token ids, and the last token-refresh instant. -/
structure MonitorState where
  sol_condition_id : String
  btc_condition_id : String
  sol_up_token_id : Option String
  sol_down_token_id : Option String
  btc_up_token_id : Option String
  btc_down_token_id : Option String
  last_market_refresh : Option ℕ
deriving DecidableEq, Repr

/-- monitor.rs `MarketMonitor::refresh_market_tokens` (lines 106-152): at most
once per 900 s, fetch both markets' metadata and reclassify the outcome-token
ids; a failed fetch (`get_market` returning none, the `if let Ok` falling
through) leaves that market's ids unchanged. Every path returns `Ok`. -/
def refresh_market_tokens (get_market : String → Option MarketDetails)
    (now : ℕ) (st : MonitorState) : Except String MonitorState :=
  let should_refresh : Bool :=
    (st.last_market_refresh.map
      (fun last => decide (900 ≤ now - last))).getD true
  if !should_refresh then Except.ok st
  else
    let st1 :=
      match get_market st.sol_condition_id with
      | some details =>
          let pair := classify_outcome_tokens details.tokens
            st.sol_up_token_id st.sol_down_token_id
          { st with sol_up_token_id := pair.1, sol_down_token_id := pair.2 }
      | none => st
    let st2 :=
      match get_market st1.btc_condition_id with
      | some details =>
          let pair := classify_outcome_tokens details.tokens
            st1.btc_up_token_id st1.btc_down_token_id
          { st1 with btc_up_token_id := pair.1, btc_down_token_id := pair.2 }
      | none => st1
    Except.ok { st2 with last_market_refresh := some now }

/-- monitor.rs `MarketMonitor::fetch_token_price` (lines 196-231): no resolved
token id means no quote; otherwise the BUY price becomes the ask and the SELL
price the bid, each individual failure making that side absent; when both
sides fail the whole quote is absent. -/
def fetch_token_price (get_price : String → String → Option ℚ)
    (token_id : Option String) : Option TokenPrice :=
  match token_id with
  | none => none
  | some tid =>
      let buy_price := get_price tid "BUY"
      let sell_price := get_price tid "SELL"
      if buy_price.isSome || sell_price.isSome then
        some { token_id := tid, bid := sell_price, ask := buy_price }
      else none

/-- monitor.rs `MarketMonitor::fetch_market_data` (lines 156-194): refresh
the token-id cache (propagating its `Result` with `?`), then assemble the
snapshot from the four individually fetched quotes. -/
def fetch_market_data (get_market : String → Option MarketDetails)
    (get_price : String → String → Option ℚ) (now : ℕ) (st : MonitorState) :
    Except String (MarketSnapshot × MonitorState) := do
  let st ← refresh_market_tokens get_market now st
  let sol_up_price := fetch_token_price get_price st.sol_up_token_id
  let sol_down_price := fetch_token_price get_price st.sol_down_token_id
  let btc_up_price := fetch_token_price get_price st.btc_up_token_id
  let btc_down_price := fetch_token_price get_price st.btc_down_token_id
  Except.ok
    ({ sol_market :=
        { condition_id := st.sol_condition_id
          market_name := "SOL"
          up_token := sol_up_price
          down_token := sol_down_price }
       btc_market :=
        { condition_id := st.btc_condition_id
          market_name := "BTC"
          up_token := btc_up_price
          down_token := btc_down_price }
       timestamp := now }, st)

theorem refresh_market_tokens_ok (get_market : String → Option MarketDetails)
    (now : ℕ) (st : MonitorState) :
    ∃ st2, refresh_market_tokens get_market now st = Except.ok st2 := by
  unfold refresh_market_tokens
  dsimp only
  split
  · exact ⟨st, rfl⟩
  · exact ⟨_, rfl⟩

/-- C9: snapshot capture never fails: for every metadata source, price
source, time and monitor state, `fetch_market_data` returns `Except.ok`, with
each leg's quote equal to its individual `fetch_token_price` result; a token
whose two price fetches both fail yields an absent quote, an unresolved token
id yields an absent quote, and a snapshot with an absent leg yields no
opportunity for the combination using it rather than a failed tick. -/
theorem fetch_market_data_never_fails
    (get_market : String → Option MarketDetails)
    (get_price : String → String → Option ℚ) (now : ℕ) (st : MonitorState) :
    (∃ snapshot st2,
      fetch_market_data get_market get_price now st =
        Except.ok (snapshot, st2) ∧
      snapshot.sol_market.up_token =
        fetch_token_price get_price st2.sol_up_token_id ∧
      snapshot.btc_market.down_token =
        fetch_token_price get_price st2.btc_down_token_id) ∧
    (∀ tid, get_price tid "BUY" = none → get_price tid "SELL" = none →
      fetch_token_price get_price (some tid) = none) ∧
    fetch_token_price get_price none = none ∧
    (∀ (d : ArbitrageDetector) (s : MarketSnapshot),
      s.sol_market.up_token = none → d.strategy1 s = []) := by
  obtain ⟨st2, hok⟩ := refresh_market_tokens_ok get_market now st
  have hmain : fetch_market_data get_market get_price now st =
      Except.ok
        ({ sol_market :=
            { condition_id := st2.sol_condition_id
              market_name := "SOL"
              up_token := fetch_token_price get_price st2.sol_up_token_id
              down_token :=
                fetch_token_price get_price st2.sol_down_token_id }
           btc_market :=
            { condition_id := st2.btc_condition_id
              market_name := "BTC"
              up_token := fetch_token_price get_price st2.btc_up_token_id
              down_token :=
                fetch_token_price get_price st2.btc_down_token_id }
           timestamp := now }, st2) := by
    unfold fetch_market_data
    rw [hok]
    rfl
  refine ⟨⟨_, st2, hmain, rfl, rfl⟩, ?_, rfl, ?_⟩
  · intro tid hbuy hsell
    unfold fetch_token_price
    dsimp only
    rw [hbuy, hsell]
    rfl
  · intro d s hnone
    unfold ArbitrageDetector.strategy1
    rw [hnone]

/-- Witness for C9 at concrete inputs: every metadata and price fetch fails,
one token id resolved, one leg-less snapshot. -/
theorem fetch_market_data_never_fails_witness :
    (∃ snapshot st2,
      fetch_market_data (fun c => none) (fun t s => none) 0
          ⟨"cs", "cb", some "ts", none, none, none, none⟩ =
        Except.ok (snapshot, st2) ∧
      snapshot.sol_market.up_token =
        fetch_token_price (fun t s => none) st2.sol_up_token_id ∧
      snapshot.btc_market.down_token =
        fetch_token_price (fun t s => none) st2.btc_down_token_id) ∧
    fetch_token_price (fun t s => none) (some "ts") = none ∧
    ArbitrageDetector.strategy1 ⟨0.01⟩
      ⟨⟨"cs", "SOL", none, none⟩, ⟨"cb", "BTC", none, none⟩, 0⟩ = [] :=
  ⟨(fetch_market_data_never_fails (fun c => none) (fun t s => none) 0
      ⟨"cs", "cb", some "ts", none, none, none, none⟩).1,
   (fetch_market_data_never_fails (fun c => none) (fun t s => none) 0
      ⟨"cs", "cb", some "ts", none, none, none, none⟩).2.1 "ts" rfl rfl,
   (fetch_market_data_never_fails (fun c => none) (fun t s => none) 0
      ⟨"cs", "cb", some "ts", none, none, none, none⟩).2.2.2 ⟨0.01⟩
      ⟨⟨"cs", "SOL", none, none⟩, ⟨"cb", "BTC", none, none⟩, 0⟩ rfl⟩

end Bot
